import Mathlib

/-!
Shallow embedding of the repository-content traversal and
compilation-extraction pipeline of `src/main.rs` (crate root).

The embedding covers the core specified in the design document: URL
parsing into owner/name, the accessibility check on the root listing,
workspace cleanup, clone, compile, the recursive walk of the contents
listing (`process_contents`), the source filter, and per-file bytecode
extraction (`get_bytecode`).

External effects (HTTP, child processes, the filesystem) are modelled as
oracles supplied in a per-repository environment, and the observable
actions of the program (log lines, HTTP GETs, directory deletions,
process invocations) are recorded in an explicit event trace.  Rust
strings are modelled as Lean `String` (the filter and suffix patterns
are ASCII, where byte- and character-based suffix/substring tests
agree); `Vec<u8>` process output run through `from_utf8_lossy` is
modelled as the resulting text.
-/

namespace C4A

/-- The `_links` object of a listing entry (`struct Links` in the source). -/
structure Links where
  self_link : Option String
  git : Option String
  html : Option String
deriving Repr, DecidableEq

/-- One entry of a repository contents listing (`struct RepoContent`).
All fields are optional, as in the source; the core logic consumes only
`name`, `path` and `_type`.  In the source both `_type` and
`content_type` are deserialized from the JSON field `type`; the code
reads `_type`. -/
structure RepoContent where
  name : Option String
  path : Option String
  sha : Option String
  size : Option Nat
  url : Option String
  _type : Option String
  html_url : Option String
  git_url : Option String
  download_url : Option String
  content_type : Option String
  links : Option Links
deriving Repr, DecidableEq

/-- Exit status of a child process.  `success` is what Rust's
`ExitStatus::success()` returns (exit code zero); `display` is the text
its `Display` implementation produces, used when the status is formatted
into an error message. -/
structure ExitStatus where
  success : Bool
  display : String
deriving Repr, DecidableEq

/-- Captured output of a finished child process (`std::process::Output`),
with the byte streams already decoded as by `from_utf8_lossy`. -/
structure ProcOutput where
  status : ExitStatus
  stdout : String
  stderr : String
deriving Repr, DecidableEq

/-- Outcome of a computation in the pipeline: normal result, an error
propagated with `?` (`Err` of the surrounding function), or a Rust
panic (`unwrap` on `None`, explicit `panic!`). -/
inductive Outcome (α : Type) where
  | ok : α → Outcome α
  | err : String → Outcome α
  | panic : String → Outcome α
deriving Repr, DecidableEq

/-- Map over the normal result of an `Outcome`. -/
def Outcome.map {α β : Type} (f : α → β) : Outcome α → Outcome β
  | .ok a => .ok (f a)
  | .err m => .err m
  | .panic m => .panic m

/-- Observable actions of the pipeline, in program order: log lines
(`println!` / `eprintln!`), HTTP GETs, directory deletions, the clone,
and child-process invocations.  `logAllResults` stands for the
`println!("ALL RESULT: ...")` line, carrying the aggregate it formats. -/
inductive Event where
  | logOut : String → Event
  | logErr : String → Event
  | logAllResults : List (String × List (String × String)) → Event
  | httpGet : String → Event
  | deleteDir : String → Event
  | cloneRepo : String → String → Event
  | runCompile : String → Event
  | runInspect : String → String → Event
deriving Repr, DecidableEq

/-- Rust `str::ends_with`, modelled on the character list of the
string (the patterns in this program are ASCII, so byte-based and
character-based suffix tests agree). -/
def ends_with (s suffix : String) : Bool :=
  suffix.data.isSuffixOf s.data

/-- Rust `str::contains` with a string pattern: substring search,
modelled on the character list. -/
def containsAux (pat : List Char) : List Char → Bool
  | [] => pat.isPrefixOf ([] : List Char)
  | c :: cs => pat.isPrefixOf (c :: cs) || containsAux pat cs

/-- Rust `str::contains` with a string pattern. -/
def str_contains (s pat : String) : Bool :=
  containsAux pat.data s.data

/-- The local workspace of a repository: `format!("./repos/{}", repo)`
(lines 146 and 258). -/
def repoPath (repo : String) : String :=
  "./repos/" ++ repo

/-- The clone URL: `format!("https://github.com/{}/{}", owner, repo)`
(line 129). -/
def repoFetchUrl (owner repo : String) : String :=
  "https://github.com/" ++ owner ++ "/" ++ repo

/-- The root-listing URL (line 131). -/
def contentsUrl (owner repo : String) : String :=
  "https://api.github.com/repos/" ++ owner ++ "/" ++ repo ++ "/contents"

/-- The sub-listing URL for a directory path (line 225). -/
def dirUrl (owner repo path : String) : String :=
  "https://api.github.com/repos/" ++ owner ++ "/" ++ repo ++ "/contents/" ++ path

/-- Rust `str::strip_suffix`: remove `suffix` if the string ends with
it, otherwise `none`. -/
def strip_suffix (s suffix : String) : Option String :=
  if ends_with s suffix then
    some (String.mk (s.data.take (s.data.length - suffix.data.length)))
  else none

/-- Rust `str::split('/')` (as used on the contest URL): split the
character list at every separator, keeping empty pieces. -/
def splitCharAux (sep : Char) : List Char → List Char → List String
  | [], acc => [String.mk acc.reverse]
  | c :: cs, acc =>
    if c == sep then String.mk acc.reverse :: splitCharAux sep cs []
    else splitCharAux sep cs (c :: acc)

/-- Rust `str::split(sep)` collected into a vector. -/
def split_char (s : String) (sep : Char) : List String :=
  splitCharAux sep s.data []

/-- The source-filter condition of `process_contents` (line 204 of
`src/main.rs`): the file name ends with `.sol`, does not end with
`.t.sol` or `.s.sol`, and does not contain the substring `Test`. -/
def isEligibleName (name : String) : Bool :=
  ends_with name ".sol" && !ends_with name ".t.sol" && !ends_with name ".s.sol"
    && !(str_contains name "Test")

/-- The Source Filter of the design document, read off the guards of
`process_contents` (lines 201–204): an entry is eligible iff its kind
(`_type`) is `file`, it has a name, and the name passes
`isEligibleName`. -/
def isEligible (c : RepoContent) : Bool :=
  c._type == some "file" &&
    match c.name with
    | some name => isEligibleName name
    | none => false

/-- `get_bytecode(original_file_name, repo)`: strip the `.sol` suffix
(`unwrap`: a missing suffix panics), run `forge inspect <name> bytecode`
with the workspace as working directory, and return stdout verbatim on
success or a formatted error on a non-zero exit status.  The `inspect`
oracle gives the result of `Command::output().await?` for a given
working directory and contract name; a spawn failure is its `.error`
case and propagates. -/
def get_bytecode (inspect : String → String → Except String ProcOutput)
    (original_file_name repo : String) : List Event × Outcome String :=
  match strip_suffix original_file_name ".sol" with
  | none => ([], .panic "called Option::unwrap() on a None value")
  | some file_name =>
    match inspect (repoPath repo) file_name with
    | .error e => ([.runInspect (repoPath repo) file_name], .err e)
    | .ok output =>
      if output.status.success then
        ([.runInspect (repoPath repo) file_name], .ok output.stdout)
      else
        ([.runInspect (repoPath repo) file_name],
          .err ("forge failed with status " ++ output.status.display ++ ": "
            ++ output.stderr))

/-- Failure modes of one listing-API call inside the walk:
`sendError` is a transport failure of `.send().await?`, `decodeError`
a failure of `.json::<Vec<RepoContent>>().await?`.  Both propagate with
`?` from `process_contents`. -/
inductive ListErr where
  | sendError : String → ListErr
  | decodeError : String → ListErr
deriving Repr, DecidableEq

mutual
/-- A node of the remote contents tree, as the listing API answers it
during one walk: an entry together with what fetching that entry's
path would return (`subErr` a failure, else the sub-listing `sub`).
The fetch result is consulted only for entries of kind `dir` with a
`path`.  A real path-keyed listing API without cycles induces such a
tree; cyclic listings are out of contract per the design document. -/
inductive Node where
  | mk (content : RepoContent) (subErr : Option ListErr) (sub : NodeList)

/-- A listing: a sequence of `Node`s (a mutual inductive rather than
`List Node` so the walk can recurse structurally). -/
inductive NodeList where
  | nil : NodeList
  | cons : Node → NodeList → NodeList
end

/-- The entry stored at a node. -/
def Node.content : Node → RepoContent
  | .mk c _ _ => c

mutual
/-- `process_contents(contents, repo_client, owner, repo)` (lines
195–242): iterate over the entries; an eligible `file` entry gets its
bytecode extracted (extraction failure is logged and the file skipped);
a `dir` entry with a `path` is fetched (`send`/`json` failures
propagate with `?`) and processed recursively, its results appended;
any other entry is skipped.  Returns the event trace and the outcome,
where an `.ok` carries the `repo_results` accumulated in program
order. -/
def process_contents (inspect : String → String → Except String ProcOutput)
    (owner repo : String) : NodeList → List Event × Outcome (List (String × String))
  | .nil => ([], .ok [])
  | .cons n rest =>
    match process_entry inspect owner repo n with
    | (ev, .ok contrib) =>
      let r2 := process_contents inspect owner repo rest
      (ev ++ r2.1, r2.2.map (fun l => contrib ++ l))
    | (ev, .err m) => (ev, .err m)
    | (ev, .panic m) => (ev, .panic m)

/-- The body of the `for content in contents` loop of
`process_contents`: the events of one entry and its contribution to
`repo_results` (`.ok []` when the entry is skipped or its extraction
failed, `.err`/`.panic` when the iteration aborts the walk). -/
def process_entry (inspect : String → String → Except String ProcOutput)
    (owner repo : String) : Node → List Event × Outcome (List (String × String))
  | .mk c subErr sub =>
    match c._type with
    | some "file" =>
      match c.name with
      | some name =>
        if isEligibleName name then
          match get_bytecode inspect name repo with
          | (ev, .ok bytecode) =>
            (ev ++ [.logOut ("Bytecode exists for: " ++ name)], .ok [(name, bytecode)])
          | (ev, .err _) =>
            (ev ++ [.logErr ("Error - Bytecode not found for: " ++ name)], .ok [])
          | (ev, .panic m) => (ev, .panic m)
        else ([], .ok [])
      | none => ([], .ok [])
    | some "dir" =>
      match c.path with
      | some path =>
        let dir_url := dirUrl owner repo path
        match subErr with
        | some (.sendError m) => ([.httpGet dir_url], .err m)
        | some (.decodeError m) => ([.httpGet dir_url], .err m)
        | none =>
          match process_contents inspect owner repo sub with
          | (evd, .ok dir_results) => (.httpGet dir_url :: evd, .ok dir_results)
          | (evd, .err m) => (.httpGet dir_url :: evd, .err m)
          | (evd, .panic m) => (.httpGet dir_url :: evd, .panic m)
      | none => ([], .ok [])
    | _ => ([], .ok [])
end

/-- The per-repository aggregate: `(repo name, list of (file, bytecode))`. -/
abbrev RepoResults := List (String × String)

/-- The overall aggregate built by `process`. -/
abbrev AllResults := List (String × RepoResults)

/-- The root-listing HTTP response (lines 134–138, 175): its status code
(`as_u16`) and the result of the later `response.text().await?`. -/
structure HttpResponse where
  status : Nat
  body : Except String String

/-- The outcome of parsing the root-listing body: in the source this is
`serde_json::from_str(&body).unwrap()` (line 177), so a decode failure
is a panic, unlike the sub-listing decodes inside the walk. -/
inductive RootParse where
  | parseError : String → RootParse
  | ok : NodeList → RootParse

/-- Everything the outside world answers while one repository is
processed: the root-listing response (`rootSend` is
`.send().await?`), whether the workspace already exists, the awaited
pre-clone delete result, the clone result, the `forge compile`
`output().await?` result, the parse of the root body (with the
sub-listing answers embedded in the `NodeList`), the `forge inspect`
oracle, and the post-processing delete result. -/
structure RepoEnv where
  rootSend : Except String HttpResponse
  wsExists : Bool
  preDelete : Except String Unit
  clone : Except String Unit
  compile : Except String ProcOutput
  parseRoot : String → RootParse
  inspect : String → String → Except String ProcOutput
  postDelete : Except String Unit

/-- One element of the `target_repos` work list: the contest URL and
the world's answers for this repository. -/
structure Target where
  url : String
  env : RepoEnv

/-- The events of the stale-workspace cleanup (lines 148–154): when the
workspace exists, the awaited `remove_dir_all` runs and a failure is
logged.  (The un-awaited `remove_dir_all` on line 149 drops its future
unpolled and has no effect.) -/
def cleanEvents (wsExists : Bool) (preDelete : Except String Unit)
    (repo_path_str : String) : List Event :=
  if wsExists then
    [Event.deleteDir repo_path_str] ++
      (match preDelete with
      | .error e => [Event.logErr ("Failed to delete repository at "
          ++ repo_path_str ++ ": " ++ e)]
      | .ok _ => [])
  else []

/-- The events after a completed walk (lines 184–190): the `ALL RESULT`
print of the accumulated aggregate, then the awaited post-processing
delete with its failure logged. -/
def postEvents (postDelete : Except String Unit) (repo_path_str : String)
    (acc2 : AllResults) : List Event :=
  [Event.logAllResults acc2, Event.deleteDir repo_path_str] ++
    (match postDelete with
    | .error e => [Event.logErr ("Failed to delete repository at "
        ++ repo_path_str ++ ": " ++ e)]
    | .ok _ => [])

/-- Lines 127–128: `contest.split('/')` and the unchecked indexing
`(parts[3], parts[4])`.  `none` models the out-of-bounds panic. -/
def parseTarget (contest : String) : Option (String × String) :=
  let parts := split_char contest '/'
  match parts[3]?, parts[4]? with
  | some owner, some repo => some (owner, repo)
  | _, _ => none

/-- The body of the `for contest in target_repos` loop of `process`
(lines 125–191), with `acc` the mutable `all_results` vector.  Mirrors
the source control flow: parse the URL (out-of-bounds panics), GET the
root listing (`?` on transport failure), skip the repository when the
status is `> 400`, delete a stale workspace (best-effort, logged),
clone (failure is `panic!`), run `forge compile` (`?` on spawn failure;
a non-zero exit builds `err_msg` but the `return Err` is commented out,
so nothing is logged or returned), read and parse the body (`?` /
`unwrap`), walk the contents, push `(repo, repo_results)` when
non-empty, print the aggregate, and delete the workspace (best-effort,
logged).  The un-awaited `remove_dir_all` on line 149 drops its future
unpolled and has no effect, so only the awaited delete is modelled. -/
def processAux : AllResults → List Target → List Event × Outcome AllResults
  | acc, [] => ([], .ok acc)
  | acc, t :: rest =>
    match parseTarget t.url with
    | none => ([], .panic "index out of bounds")
    | some (owner, repo) =>
      let repo_fetch_url := repoFetchUrl owner repo
      let contents_url := contentsUrl owner repo
      let ev0 := [Event.logOut ("Contest Repo: " ++ contents_url),
        Event.httpGet contents_url]
      match t.env.rootSend with
      | .error m => (ev0, .err m)
      | .ok response =>
        if response.status > 400 then
          let r := processAux acc rest
          (ev0 ++ [.logOut ("Repo not accessible. " ++ toString response.status)]
            ++ r.1, r.2)
        else
          let repo_path_str := repoPath repo
          let evClean := cleanEvents t.env.wsExists t.env.preDelete repo_path_str
          match t.env.clone with
          | .error e =>
            (ev0 ++ evClean ++ [.cloneRepo repo_fetch_url repo_path_str],
              .panic ("failed to clone: " ++ e))
          | .ok _ =>
            let evClone := [Event.cloneRepo repo_fetch_url repo_path_str,
              Event.logOut "Repo cloned. Attempting compilation."]
            match t.env.compile with
            | .error m => (ev0 ++ evClean ++ evClone ++ [.runCompile repo_path_str],
                .err m)
            | .ok _output =>
              let evCompile := [Event.runCompile repo_path_str]
              match response.body with
              | .error m => (ev0 ++ evClean ++ evClone ++ evCompile, .err m)
              | .ok body =>
                match t.env.parseRoot body with
                | .parseError m =>
                  (ev0 ++ evClean ++ evClone ++ evCompile, .panic m)
                | .ok contents =>
                  match process_contents t.env.inspect owner repo contents with
                  | (evW, .err m) =>
                    (ev0 ++ evClean ++ evClone ++ evCompile ++ evW, .err m)
                  | (evW, .panic m) =>
                    (ev0 ++ evClean ++ evClone ++ evCompile ++ evW, .panic m)
                  | (evW, .ok repo_results) =>
                    let acc2 := if repo_results.isEmpty then acc
                      else acc ++ [(repo, repo_results)]
                    let evPost := postEvents t.env.postDelete repo_path_str acc2
                    let r := processAux acc2 rest
                    (ev0 ++ evClean ++ evClone ++ evCompile ++ evW
                      ++ evPost ++ r.1, r.2)

/-- `process(target_repos)` (lines 119–193): run the per-repository
loop with an empty `all_results`. -/
def process (target_repos : List Target) : List Event × Outcome AllResults :=
  processAux [] target_repos

/-! ### Concrete fixtures used by witnesses and counterexamples -/

/-- A listing entry of kind `file` with the given name (path equal to
the name; the metadata the core ignores left absent). -/
def fileEntry (n : String) : RepoContent :=
  ⟨some n, some n, none, none, none, some "file", none, none, none, none, none⟩

/-- A listing entry of kind `dir` with the given name and path. -/
def dirEntry (n p : String) : RepoContent :=
  ⟨some n, some p, none, none, none, some "dir", none, none, none, none, none⟩

/-- A bytecode-inspect oracle that always succeeds with the given
stdout. -/
def okInspect (bc : String) : String → String → Except String ProcOutput :=
  fun _ _ => .ok ⟨⟨true, "exit status: 0"⟩, bc, ""⟩

/-- The synthetic tree of the design document's Tree Walker property:
`root = [file "A.sol", dir "lib" = [file "B.sol", file "B.t.sol"]]`. -/
def syntheticTree : NodeList :=
  .cons (.mk (fileEntry "A.sol") none .nil)
    (.cons (.mk (dirEntry "lib" "lib") none
      (.cons (.mk (fileEntry "B.sol") none .nil)
        (.cons (.mk (fileEntry "B.t.sol") none .nil) .nil)))
      .nil)

/-- A fully successful per-repository environment: accessible root
listing, no stale workspace, clone and compile succeed, the root body
parses to a single eligible file, and inspection succeeds. -/
def goodEnv : RepoEnv where
  rootSend := .ok ⟨200, .ok "body"⟩
  wsExists := false
  preDelete := .ok ()
  clone := .ok ()
  compile := .ok ⟨⟨true, "exit status: 0"⟩, "", ""⟩
  parseRoot := fun _ => .ok (.cons (.mk (fileEntry "Token.sol") none .nil) .nil)
  inspect := okInspect "0xBC"
  postDelete := .ok ()

/-- A target whose URL parses to `(ownerA, repoA)` with the fully
successful environment. -/
def goodTarget : Target := ⟨"https://github.com/ownerA/repoA", goodEnv⟩

/-- A second fully successful target with a distinct owner and name. -/
def goodTargetB : Target := ⟨"https://github.com/ownerB/repoB", goodEnv⟩

/-- `goodEnv`, but the root listing answers with status exactly 400. -/
def status400Target : Target :=
  ⟨"https://github.com/ownerA/repoA",
    { goodEnv with rootSend := .ok ⟨400, .ok "body"⟩ }⟩

/-- `goodEnv`, but the root listing holds one directory whose
sub-listing fetch fails at the transport level. -/
def walkFailTarget : Target :=
  ⟨"https://github.com/ownerA/repoA",
    { goodEnv with parseRoot := (fun _ =>
        .ok (.cons (.mk (dirEntry "lib" "lib") (some (.sendError "net down")) .nil)
          .nil)) }⟩

/-- `goodEnv`, but `forge compile` exits with a non-zero status. -/
def compileFailTarget : Target :=
  ⟨"https://github.com/ownerA/repoA",
    { goodEnv with compile := .ok ⟨⟨false, "exit status: 1"⟩, "", "compilation failed"⟩ }⟩

/-- `goodEnv`, but the clone fails. -/
def cloneFailTarget : Target :=
  ⟨"https://github.com/ownerA/repoA",
    { goodEnv with clone := .error "authentication required" }⟩

/-- `goodEnv`, but the root listing parses to an empty listing, so the
repository yields no eligible files. -/
def emptyRepoTarget : Target :=
  ⟨"https://github.com/ownerA/repoA", { goodEnv with parseRoot := fun _ => .ok .nil }⟩

/-- An inspect oracle whose process always exits non-zero. -/
def badInspect : String → String → Except String ProcOutput :=
  fun _ _ => .ok ⟨⟨false, "exit status: 1"⟩, "", "missing artifact"⟩

/-! ### Specification-side definitions -/

/-- Is an event an invocation of the external compile command? -/
def isCompileEvent : Event → Bool
  | .runCompile _ => true
  | _ => false

/-- Does a log event carry the compile-failure text the source formats
(`"forge build failed with status ..."`, line 168)?  The source builds
that string but never prints or returns it. -/
def mentionsCompileFailure : Event → Bool
  | .logOut m => str_contains m "forge build failed"
  | .logErr m => str_contains m "forge build failed"
  | _ => false

/-- The kinds of events the walk can emit: listing GETs, log lines and
inspect invocations — never a compile, clone or directory deletion. -/
def isWalkEvent : Event → Bool
  | .httpGet _ => true
  | .logOut _ => true
  | .logErr _ => true
  | .runInspect _ _ => true
  | _ => false

/-- An inspect oracle under which every extraction succeeds. -/
def InspectTotal (inspect : String → String → Except String ProcOutput) : Prop :=
  ∀ p f, ∃ out, inspect p f = Except.ok out ∧ out.status.success = true

mutual
/-- The Tree Walker contract of the design document, stated on names:
an eligible `file` entry contributes its name, a `dir` entry with a
path contributes the names of its sub-listing, everything else is
skipped. -/
def walkNames : NodeList → List String
  | .nil => []
  | .cons n ns => walkNamesEntry n ++ walkNames ns

/-- One entry's contribution to `walkNames`. -/
def walkNamesEntry : Node → List String
  | .mk c _ sub =>
    match c._type with
    | some "file" =>
      match c.name with
      | some name => if isEligibleName name then [name] else []
      | none => []
    | some "dir" =>
      match c.path with
      | some _ => walkNames sub
      | none => []
    | _ => []
end

mutual
/-- A listing whose reachable `dir` fetches all succeed (no
transport or decode failures anywhere in the tree). -/
def cleanListing : NodeList → Bool
  | .nil => true
  | .cons n ns => cleanNode n && cleanListing ns

/-- One node's contribution to `cleanListing`. -/
def cleanNode : Node → Bool
  | .mk c subErr sub =>
    match c._type, c.path with
    | some "dir", some _ => subErr.isNone && cleanListing sub
    | _, _ => true
end

/-! ### Helper lemmas -/

theorem list_getElem_isSome {α : Type} (l : List α) (n : Nat) :
    l[n]?.isSome = true ↔ n < l.length := by
  constructor
  · intro h
    by_contra hn
    push_neg at hn
    rw [List.getElem?_eq_none hn] at h
    simp at h
  · intro h
    rw [List.getElem?_eq_getElem h]
    rfl

/-! ### C1: the source filter -/

/-- C1: the source filter accepts a content entry iff its kind is
`file` and its name ends with `.sol`, does not end with `.t.sol`, does
not end with `.s.sol`, and does not contain the substring `Test`; in
particular `Token.sol` is accepted while `Token.t.sol`,
`DeployToken.s.sol`, `TestToken.sol` and `token.sol.bak` are
rejected. -/
theorem c1_source_filter :
    (∀ c : RepoContent, isEligible c = true ↔
      (c._type = some "file" ∧ ∃ n, c.name = some n ∧
        ends_with n ".sol" = true ∧ ends_with n ".t.sol" = false ∧
        ends_with n ".s.sol" = false ∧ str_contains n "Test" = false))
    ∧ isEligible (fileEntry "Token.sol") = true
    ∧ isEligible (fileEntry "Token.t.sol") = false
    ∧ isEligible (fileEntry "DeployToken.s.sol") = false
    ∧ isEligible (fileEntry "TestToken.sol") = false
    ∧ isEligible (fileEntry "token.sol.bak") = false := by
  refine ⟨?_, by decide, by decide, by decide, by decide, by decide⟩
  intro c
  cases hname : c.name with
  | none =>
    simp [isEligible, hname]
  | some n =>
    simp [isEligible, hname, isEligibleName, Bool.and_eq_true, beq_iff_eq,
      Bool.not_eq_true', and_assoc]

theorem get_bytecode_events (inspect : String → String → Except String ProcOutput)
    (n repo : String) :
    ∀ e ∈ (get_bytecode inspect n repo).1, isWalkEvent e = true := by
  intro e he
  unfold get_bytecode at he
  split at he
  · simp at he
  · split at he
    · simp at he
      rw [he]
      rfl
    · split at he <;> (simp at he; rw [he]; rfl)

mutual

theorem walkEvents_contents (inspect : String → String → Except String ProcOutput)
    (owner repo : String) :
    ∀ (nl : NodeList) (e : Event),
      e ∈ (process_contents inspect owner repo nl).1 → isWalkEvent e = true
  | .nil, e, he => by simp [process_contents] at he
  | .cons n rest, e, he => by
    have ih1 := walkEvents_entry inspect owner repo n
    have ih2 := walkEvents_contents inspect owner repo rest
    unfold process_contents at he
    split at he <;>
      rename_i heq <;>
      simp only [List.mem_append, List.mem_cons] at he <;>
      first
      | (rcases he with h | h
         · exact ih1 e (by rw [heq]; exact h)
         · exact ih2 e h)
      | exact ih1 e (by rw [heq]; exact he)

theorem walkEvents_entry (inspect : String → String → Except String ProcOutput)
    (owner repo : String) :
    ∀ (n : Node) (e : Event),
      e ∈ (process_entry inspect owner repo n).1 → isWalkEvent e = true
  | .mk c subErr sub, e, he => by
    have ihs := walkEvents_contents inspect owner repo sub
    have ihb := get_bytecode_events inspect
    unfold process_entry at he
    split at he
    · split at he
      · split at he
        · split at he <;>
            rename_i heq <;>
            simp only [List.mem_append, List.mem_cons, List.mem_singleton,
              List.not_mem_nil, or_false] at he
          · rcases he with h | h
            · exact ihb _ repo e (by rw [heq]; exact h)
            · rw [h]; rfl
          · rcases he with h | h
            · exact ihb _ repo e (by rw [heq]; exact h)
            · rw [h]; rfl
          · exact ihb _ repo e (by rw [heq]; exact he)
        · simp at he
      · simp at he
    · split at he
      · split at he
        · simp at he; rw [he]; rfl
        · simp at he; rw [he]; rfl
        · split at he <;>
            rename_i heq <;>
            simp only [List.mem_cons] at he <;>
            (rcases he with h | h
             · rw [h]; rfl
             · exact ihs e (by rw [heq]; exact h))
      · simp at he
    · simp at he

end

theorem Outcome.map_eq_panic {α β : Type} (f : α → β) (x : Outcome α) (m : String) :
    x.map f = .panic m ↔ x = .panic m := by
  cases x <;> simp [Outcome.map]

theorem Outcome.map_eq_err {α β : Type} (f : α → β) (x : Outcome α) (m : String) :
    x.map f = .err m ↔ x = .err m := by
  cases x <;> simp [Outcome.map]

theorem Outcome.map_eq_ok {α β : Type} (f : α → β) (x : Outcome α) (b : β) :
    x.map f = .ok b ↔ ∃ a, x = .ok a ∧ f a = b := by
  cases x <;> simp [Outcome.map]

theorem isEligibleName_ends_sol {n : String} (h : isEligibleName n = true) :
    ends_with n ".sol" = true := by
  unfold isEligibleName at h
  simp only [Bool.and_eq_true] at h
  exact h.1.1.1

theorem get_bytecode_no_panic (inspect : String → String → Except String ProcOutput)
    {n : String} (repo : String) (h : ends_with n ".sol" = true) :
    ∀ m, (get_bytecode inspect n repo).2 ≠ .panic m := by
  intro m
  unfold get_bytecode strip_suffix
  simp only [h, if_true]
  split <;> try simp
  split <;> simp

theorem get_bytecode_panics (inspect : String → String → Except String ProcOutput)
    {n : String} (repo : String) (h : ends_with n ".sol" = false) :
    get_bytecode inspect n repo = ([], .panic "called Option::unwrap() on a None value") := by
  unfold get_bytecode strip_suffix
  simp [h]

mutual

theorem walkNoPanic_contents (inspect : String → String → Except String ProcOutput)
    (owner repo : String) :
    ∀ (nl : NodeList) (m : String),
      (process_contents inspect owner repo nl).2 ≠ .panic m
  | .nil, m => by simp [process_contents]
  | .cons n rest, m => by
    have ih1 := walkNoPanic_entry inspect owner repo n
    have ih2 := walkNoPanic_contents inspect owner repo rest
    unfold process_contents
    split <;> rename_i heq
    · intro hc
      exact ih2 m ((Outcome.map_eq_panic _ _ _).mp hc)
    · simp
    · exact fun _ => (ih1 _ (by rw [heq])).elim

theorem walkNoPanic_entry (inspect : String → String → Except String ProcOutput)
    (owner repo : String) :
    ∀ (n : Node) (m : String), (process_entry inspect owner repo n).2 ≠ .panic m
  | .mk c subErr sub, m => by
    have ihs := walkNoPanic_contents inspect owner repo sub
    unfold process_entry
    split
    · split
      · split <;> rename_i helig
        · split <;> rename_i heq
          · simp
          · simp
          · intro _
            exact get_bytecode_no_panic inspect repo
              (isEligibleName_ends_sol helig) _ (by rw [heq])
        · simp
      · simp
    · split
      · split
        · simp
        · simp
        · split <;> rename_i heq
          · simp
          · simp
          · exact fun _ => (ihs _ (by rw [heq])).elim
      · simp
    · simp

end

/-! ### Equation lemmas for one walk iteration -/

theorem process_entry_skip (inspect : String → String → Except String ProcOutput)
    (owner repo : String) (c : RepoContent) (subErr : Option ListErr) (sub : NodeList)
    (h1 : c._type ≠ some "file") (h2 : c._type ≠ some "dir") :
    process_entry inspect owner repo (.mk c subErr sub) = ([], .ok []) := by
  unfold process_entry
  split
  · exact absurd (by assumption) h1
  · exact absurd (by assumption) h2
  · rfl

theorem process_entry_file_noname (inspect : String → String → Except String ProcOutput)
    (owner repo : String) (c : RepoContent) (subErr : Option ListErr) (sub : NodeList)
    (htype : c._type = some "file") (hname : c.name = none) :
    process_entry inspect owner repo (.mk c subErr sub) = ([], .ok []) := by
  unfold process_entry
  rw [htype, hname]
  rfl

theorem process_entry_file_inelig (inspect : String → String → Except String ProcOutput)
    (owner repo : String) (c : RepoContent) (subErr : Option ListErr) (sub : NodeList)
    {name : String} (htype : c._type = some "file") (hname : c.name = some name)
    (helig : isEligibleName name = false) :
    process_entry inspect owner repo (.mk c subErr sub) = ([], .ok []) := by
  unfold process_entry
  rw [htype, hname]
  simp [helig]

theorem process_entry_file_ok (inspect : String → String → Except String ProcOutput)
    (owner repo : String) (c : RepoContent) (subErr : Option ListErr) (sub : NodeList)
    {name bc : String} {ev : List Event}
    (htype : c._type = some "file") (hname : c.name = some name)
    (helig : isEligibleName name = true)
    (hbc : get_bytecode inspect name repo = (ev, .ok bc)) :
    process_entry inspect owner repo (.mk c subErr sub) =
      (ev ++ [.logOut ("Bytecode exists for: " ++ name)], .ok [(name, bc)]) := by
  unfold process_entry
  rw [htype, hname]
  simp only [helig, if_true]
  rw [hbc]

theorem process_entry_file_err (inspect : String → String → Except String ProcOutput)
    (owner repo : String) (c : RepoContent) (subErr : Option ListErr) (sub : NodeList)
    {name m : String} {ev : List Event}
    (htype : c._type = some "file") (hname : c.name = some name)
    (helig : isEligibleName name = true)
    (hbc : get_bytecode inspect name repo = (ev, .err m)) :
    process_entry inspect owner repo (.mk c subErr sub) =
      (ev ++ [.logErr ("Error - Bytecode not found for: " ++ name)], .ok []) := by
  unfold process_entry
  rw [htype, hname]
  simp only [helig, if_true]
  rw [hbc]

theorem process_entry_dir_nopath (inspect : String → String → Except String ProcOutput)
    (owner repo : String) (c : RepoContent) (subErr : Option ListErr) (sub : NodeList)
    (htype : c._type = some "dir") (hpath : c.path = none) :
    process_entry inspect owner repo (.mk c subErr sub) = ([], .ok []) := by
  unfold process_entry
  rw [htype, hpath]
  rfl

theorem process_entry_dir_fetchfail (inspect : String → String → Except String ProcOutput)
    (owner repo : String) (c : RepoContent) {fe : ListErr} (sub : NodeList)
    {p : String} (htype : c._type = some "dir") (hpath : c.path = some p) :
    process_entry inspect owner repo (.mk c (some fe) sub) =
      ([.httpGet (dirUrl owner repo p)],
        .err (match fe with | .sendError m => m | .decodeError m => m)) := by
  unfold process_entry
  rw [htype, hpath]
  cases fe <;> rfl

theorem process_entry_dir (inspect : String → String → Except String ProcOutput)
    (owner repo : String) (c : RepoContent) (sub : NodeList)
    {p : String} (htype : c._type = some "dir") (hpath : c.path = some p) :
    process_entry inspect owner repo (.mk c none sub) =
      (.httpGet (dirUrl owner repo p) :: (process_contents inspect owner repo sub).1,
        (process_contents inspect owner repo sub).2) := by
  unfold process_entry
  rw [htype, hpath]
  rcases h : process_contents inspect owner repo sub with ⟨evd, out⟩
  cases out <;> rfl

theorem process_contents_cons (inspect : String → String → Except String ProcOutput)
    (owner repo : String) (n : Node) (rest : NodeList) :
    process_contents inspect owner repo (.cons n rest) =
      match process_entry inspect owner repo n with
      | (ev, .ok contrib) =>
        (ev ++ (process_contents inspect owner repo rest).1,
          (process_contents inspect owner repo rest).2.map (fun l => contrib ++ l))
      | (ev, .err m) => (ev, .err m)
      | (ev, .panic m) => (ev, .panic m) := by
  rfl

theorem get_bytecode_ok_of_total (inspect : String → String → Except String ProcOutput)
    (hT : InspectTotal inspect) {n : String} (repo : String)
    (h : ends_with n ".sol" = true) :
    ∃ ev bc, get_bytecode inspect n repo = (ev, .ok bc) := by
  unfold get_bytecode strip_suffix
  simp only [h, if_true]
  obtain ⟨out, hin, hs⟩ := hT (repoPath repo)
    (String.mk (n.data.take (n.data.length - ".sol".data.length)))
  rw [hin]
  simp [hs]

/-! ### The walk under a total oracle computes the filtered names -/

mutual

theorem walkNames_contents (inspect : String → String → Except String ProcOutput)
    (owner repo : String) (hT : InspectTotal inspect) :
    ∀ nl : NodeList, cleanListing nl = true →
      ∃ rs, (process_contents inspect owner repo nl).2 = .ok rs ∧
        rs.map Prod.fst = walkNames nl
  | .nil, _ => ⟨[], by simp [process_contents, walkNames]⟩
  | .cons n rest, hc => by
    have hc' : cleanNode n = true ∧ cleanListing rest = true := by
      unfold cleanListing at hc
      rw [Bool.and_eq_true] at hc
      exact hc
    have hcn := hc'.1
    have hcr := hc'.2
    obtain ⟨rs1, h1, hn1⟩ := walkNames_entry inspect owner repo hT n hcn
    obtain ⟨rs2, h2, hn2⟩ := walkNames_contents inspect owner repo hT rest hcr
    rcases hpe : process_entry inspect owner repo n with ⟨ev, out⟩
    rw [hpe] at h1
    simp only at h1
    subst h1
    refine ⟨rs1 ++ rs2, ?_, ?_⟩
    · rw [process_contents_cons, hpe]
      simp only [h2, Outcome.map]
    · rw [List.map_append, hn1, hn2]
      rfl

theorem walkNames_entry (inspect : String → String → Except String ProcOutput)
    (owner repo : String) (hT : InspectTotal inspect) :
    ∀ n : Node, cleanNode n = true →
      ∃ rs, (process_entry inspect owner repo n).2 = .ok rs ∧
        rs.map Prod.fst = walkNamesEntry n
  | .mk c subErr sub, hc => by
    rcases htype : c._type with _ | s
    · rw [process_entry_skip inspect owner repo c subErr sub
        (by simp [htype]) (by simp [htype])]
      exact ⟨[], rfl, by simp [walkNamesEntry, htype]⟩
    · by_cases hf : s = "file"
      · subst hf
        rcases hname : c.name with _ | name
        · rw [process_entry_file_noname inspect owner repo c subErr sub htype hname]
          exact ⟨[], rfl, by simp [walkNamesEntry, htype, hname]⟩
        · by_cases helig : isEligibleName name = true
          · obtain ⟨ev, bc, hbc⟩ := get_bytecode_ok_of_total inspect hT repo
              (isEligibleName_ends_sol helig)
            rw [process_entry_file_ok inspect owner repo c subErr sub htype hname
              helig hbc]
            exact ⟨[(name, bc)], rfl, by simp [walkNamesEntry, htype, hname, helig]⟩
          · have helig' : isEligibleName name = false := by
              cases h : isEligibleName name with
              | false => rfl
              | true => exact absurd h helig
            rw [process_entry_file_inelig inspect owner repo c subErr sub htype hname
              helig']
            exact ⟨[], rfl, by simp [walkNamesEntry, htype, hname, helig']⟩
      · by_cases hd : s = "dir"
        · subst hd
          rcases hpath : c.path with _ | p
          · rw [process_entry_dir_nopath inspect owner repo c subErr sub htype hpath]
            exact ⟨[], rfl, by simp [walkNamesEntry, htype, hpath]⟩
          · have hc2 : (subErr.isNone && cleanListing sub) = true := by
              unfold cleanNode at hc
              rw [htype, hpath] at hc
              exact hc
            have hsub : subErr = none := by
              rcases subErr with _ | fe
              · rfl
              · simp at hc2
            subst hsub
            rw [Bool.and_eq_true] at hc2
            obtain ⟨rs, hr, hnames⟩ := walkNames_contents inspect owner repo hT sub
              hc2.2
            rw [process_entry_dir inspect owner repo c sub htype hpath]
            exact ⟨rs, hr, by simp [walkNamesEntry, htype, hpath, hnames]⟩
        · rw [process_entry_skip inspect owner repo c subErr sub
            (by simp [htype, hf]) (by simp [htype, hd])]
          exact ⟨[], rfl, by simp [walkNamesEntry, htype, hf, hd]⟩

end

/-! ### C9: URL parsing -/

/-- C9: parsing a repository URL succeeds exactly when the URL has at
least 5 `/`-separated segments, the owner and name being the segments
at indices 3 and 4; on any URL with fewer segments the indexing is a
fatal condition (the per-repository loop panics instead of producing a
target). -/
theorem c9_url_parsing :
    (∀ url : String, (parseTarget url).isSome = true ↔
      5 ≤ (split_char url '/').length)
    ∧ (∀ url owner repo, parseTarget url = some (owner, repo) →
        (split_char url '/')[3]? = some owner ∧
        (split_char url '/')[4]? = some repo)
    ∧ (∀ acc t rest, parseTarget t.url = none →
        processAux acc (t :: rest) = ([], .panic "index out of bounds")) := by
  refine ⟨?_, ?_, ?_⟩
  · intro url
    have h3 := list_getElem_isSome (split_char url '/') 3
    have h4 := list_getElem_isSome (split_char url '/') 4
    rcases e3 : (split_char url '/')[3]? with _ | o <;>
      rcases e4 : (split_char url '/')[4]? with _ | r <;>
      rw [e3] at h3 <;> rw [e4] at h4 <;>
      simp only [parseTarget, e3, e4] <;>
      simp at h3 h4 ⊢ <;> omega
  · intro url owner repo h
    rcases e3 : (split_char url '/')[3]? with _ | o <;>
      rcases e4 : (split_char url '/')[4]? with _ | r <;>
      simp only [parseTarget, e3, e4] at h <;> simp at h
    exact ⟨by rw [h.1], by rw [h.2]⟩
  · intro acc t rest h
    unfold processAux
    rw [h]

/-- Witness for C9: a well-formed URL parses to its segments 3 and 4,
and a URL with fewer than 5 segments makes the loop panic. -/
theorem c9_url_parsing_witness :
    (parseTarget "https://github.com/ownerA/repoA").isSome = true ∧
    (split_char "https://github.com/ownerA/repoA" '/')[3]? = some "ownerA" ∧
    processAux [] [⟨"abc", goodEnv⟩] = ([], .panic "index out of bounds") := by
  refine ⟨?_, ?_, ?_⟩
  · exact (c9_url_parsing.1 "https://github.com/ownerA/repoA").mpr (by decide)
  · exact (c9_url_parsing.2.1 "https://github.com/ownerA/repoA" "ownerA" "repoA"
      (by decide)).1
  · exact c9_url_parsing.2.2 [] ⟨"abc", goodEnv⟩ [] (by decide)

/-- Witness for C1 at the concrete entry `Token.sol`. -/
theorem c1_source_filter_witness :
    isEligible (fileEntry "Token.sol") = true :=
  (c1_source_filter.1 (fileEntry "Token.sol")).mpr
    ⟨rfl, "Token.sol", rfl, by decide, by decide, by decide, by decide⟩

/-! ### C10: the unchecked suffix strip -/

/-- C10: every name the source filter accepts ends with `.sol`, so the
unchecked `.sol` strip inside `get_bytecode` never panics on a name the
tree walk passes to it (the walk as a whole never panics); on any name
not ending in `.sol`, `get_bytecode` panics instead of returning a
typed error. -/
theorem c10_strip_suffix_safety :
    (∀ n : String, isEligibleName n = true → ends_with n ".sol" = true)
    ∧ (∀ (inspect : String → String → Except String ProcOutput) (repo n : String),
        ends_with n ".sol" = false →
        get_bytecode inspect n repo =
          ([], .panic "called Option::unwrap() on a None value"))
    ∧ (∀ (inspect : String → String → Except String ProcOutput)
        (owner repo : String) (nl : NodeList) (m : String),
        (process_contents inspect owner repo nl).2 ≠ .panic m) := by
  refine ⟨?_, ?_, ?_⟩
  · exact fun n h => isEligibleName_ends_sol h
  · exact fun inspect repo n h => get_bytecode_panics inspect repo h
  · exact fun inspect owner repo nl m => walkNoPanic_contents inspect owner repo nl m

/-- Witness for C10: `Token.sol` passes the filter and ends in `.sol`;
`README.md` makes the extractor panic; the synthetic tree's walk does
not panic. -/
theorem c10_strip_suffix_safety_witness :
    ends_with "Token.sol" ".sol" = true ∧
    get_bytecode (okInspect "0xBC") "README.md" "repoA" =
      ([], .panic "called Option::unwrap() on a None value") ∧
    (process_contents (okInspect "0xBC") "ownerA" "repoA" syntheticTree).2 ≠
      .panic "boom" :=
  ⟨c10_strip_suffix_safety.1 "Token.sol" (by decide),
   c10_strip_suffix_safety.2.1 (okInspect "0xBC") "repoA" "README.md" (by decide),
   c10_strip_suffix_safety.2.2 (okInspect "0xBC") "ownerA" "repoA" syntheticTree "boom"⟩

/-! ### C2: inaccessible repositories -/

/-- C2 (amended): a root-listing status strictly greater than 400 makes
the repository be skipped — it contributes nothing and the run
continues with the remaining repositories.  (A status of exactly 400 is
not skipped; see the counterexample.) -/
theorem c2_inaccessible_skip :
    ∀ (acc : AllResults) (t : Target) (rest : List Target)
      (owner repo : String) (resp : HttpResponse),
      parseTarget t.url = some (owner, repo) →
      t.env.rootSend = .ok resp →
      resp.status > 400 →
      processAux acc (t :: rest) =
        ([.logOut ("Contest Repo: " ++ contentsUrl owner repo),
          .httpGet (contentsUrl owner repo),
          .logOut ("Repo not accessible. " ++ toString resp.status)]
          ++ (processAux acc rest).1,
        (processAux acc rest).2) := by
  intro acc t rest owner repo resp hp hs hgt
  conv_lhs => rw [processAux.eq_def]
  dsimp only
  rw [hp]
  dsimp only
  rw [hs]
  dsimp only
  rw [if_pos hgt]
  rfl

/-- Counterexample to C2 as stated: with a root-listing status of
exactly 400 the repository is not skipped — it is processed to the end
and contributes a `RepositoryResult`. -/
theorem c2_counterexample :
    status400Target.env.rootSend = .ok ⟨400, .ok "body"⟩ ∧
    (process [status400Target]).2 = .ok [("repoA", [("Token.sol", "0xBC")])] := by
  exact ⟨rfl, by decide⟩

/-- Witness for C2 (amended) at a concrete status-404 repository
followed by a successful one. -/
theorem c2_inaccessible_skip_witness :
    (process [⟨"https://github.com/ownerA/repoA",
        { goodEnv with rootSend := .ok ⟨404, .ok "body"⟩ }⟩, goodTargetB]).2 =
      .ok [("repoB", [("Token.sol", "0xBC")])] := by
  have h := c2_inaccessible_skip []
    ⟨"https://github.com/ownerA/repoA", { goodEnv with rootSend := .ok ⟨404, .ok "body"⟩ }⟩
    [goodTargetB] "ownerA" "repoA" ⟨404, .ok "body"⟩ (by decide) rfl (by decide)
  calc (process [⟨"https://github.com/ownerA/repoA",
        { goodEnv with rootSend := .ok ⟨404, .ok "body"⟩ }⟩, goodTargetB]).2
      = (processAux [] [goodTargetB]).2 := by rw [show process [⟨"https://github.com/ownerA/repoA",
          { goodEnv with rootSend := .ok ⟨404, .ok "body"⟩ }⟩, goodTargetB] = processAux []
          [⟨"https://github.com/ownerA/repoA", { goodEnv with rootSend := .ok ⟨404, .ok "body"⟩ }⟩,
          goodTargetB] from rfl, h]
    _ = .ok [("repoB", [("Token.sol", "0xBC")])] := by decide

/-! ### C5: clone failure is fatal -/

/-- C5: a clone failure panics the whole run: the outcome is a panic
carrying the clone error, and the remaining repositories are never
examined (the result does not depend on them). -/
theorem c5_clone_fatal :
    ∀ (acc : AllResults) (t : Target) (rest rest' : List Target)
      (owner repo : String) (resp : HttpResponse) (e : String),
      parseTarget t.url = some (owner, repo) →
      t.env.rootSend = .ok resp →
      ¬ resp.status > 400 →
      t.env.clone = .error e →
      (processAux acc (t :: rest)).2 = .panic ("failed to clone: " ++ e) ∧
      processAux acc (t :: rest) = processAux acc (t :: rest') := by
  intro acc t rest rest' owner repo resp e hp hs hle hc
  unfold processAux
  rw [hp]
  dsimp only
  rw [hs]
  dsimp only
  rw [if_neg hle, if_neg hle, hc]
  dsimp only
  exact ⟨rfl, rfl⟩

/-- Witness for C5: a concrete failing clone aborts a two-repository
run with a panic; the second repository is never processed. -/
theorem c5_clone_fatal_witness :
    (process [cloneFailTarget, goodTargetB]).2 =
      .panic ("failed to clone: " ++ "authentication required") ∧
    processAux [] [cloneFailTarget, goodTargetB] = processAux [] [cloneFailTarget] :=
  (c5_clone_fatal [] cloneFailTarget [goodTargetB] [] "ownerA" "repoA"
    ⟨200, .ok "body"⟩ "authentication required" (by decide) rfl (by decide) rfl)

/-! ### C3: tree-walk failure -/

/-- C3 (amended): a failure inside the tree walk (a sub-listing
transport or decode failure during recursion) propagates out of the
per-repository loop with `?`: the whole run ends with that error, the
repository's post-processing cleanup delete never runs, and the
remaining repositories are never examined. -/
theorem c3_walk_failure_fatal :
    ∀ (acc : AllResults) (t : Target) (rest rest' : List Target)
      (owner repo : String) (resp : HttpResponse) (out : ProcOutput)
      (b : String) (contents : NodeList) (evW : List Event) (m : String),
      parseTarget t.url = some (owner, repo) →
      t.env.rootSend = .ok resp →
      ¬ resp.status > 400 →
      t.env.wsExists = false →
      t.env.clone = .ok () →
      t.env.compile = .ok out →
      resp.body = .ok b →
      t.env.parseRoot b = .ok contents →
      process_contents t.env.inspect owner repo contents = (evW, .err m) →
      (processAux acc (t :: rest)).2 = .err m ∧
      processAux acc (t :: rest) = processAux acc (t :: rest') ∧
      ∀ p, Event.deleteDir p ∉ (processAux acc (t :: rest)).1 := by
  intro acc t rest rest' owner repo resp out b contents evW m hp hs hle hw hcl hco hb
    hpr hwalk
  have hred : ∀ r : List Target, processAux acc (t :: r) =
      ([.logOut ("Contest Repo: " ++ contentsUrl owner repo),
        .httpGet (contentsUrl owner repo)]
        ++ ([] : List Event)
        ++ [.cloneRepo (repoFetchUrl owner repo) (repoPath repo),
          .logOut "Repo cloned. Attempting compilation."]
        ++ [.runCompile (repoPath repo)] ++ evW, .err m) := by
    intro r
    conv_lhs => rw [processAux.eq_def]
    dsimp only
    rw [hp]
    dsimp only
    rw [hs]
    dsimp only
    rw [if_neg hle, hw, hcl, hco, hb]
    dsimp only
    rw [hpr]
    dsimp only
    rw [hwalk]
    rfl
  refine ⟨by rw [hred rest], by rw [hred rest, hred rest'], ?_⟩
  intro p hmem
  rw [hred rest] at hmem
  simp at hmem
  have hwe := walkEvents_contents t.env.inspect owner repo contents
    (Event.deleteDir p) (by rw [hwalk]; exact hmem)
  simp [isWalkEvent] at hwe

/-- Counterexample to C3 as stated: with a failing sub-listing in the
first repository, the whole two-repository run aborts with that error
(the fully successful second repository contributes nothing), and no
cleanup delete is ever issued for the first repository. -/
theorem c3_counterexample :
    (process [walkFailTarget, goodTargetB]).2 = .err "net down" ∧
    Event.deleteDir (repoPath "repoA") ∉ (process [walkFailTarget, goodTargetB]).1 :=
  ⟨by decide, by decide⟩

/-- Witness for C3 (amended) at a concrete two-repository run. -/
theorem c3_walk_failure_fatal_witness :
    (processAux [] [walkFailTarget, goodTargetB]).2 = .err "net down" ∧
    processAux [] [walkFailTarget, goodTargetB] = processAux [] [walkFailTarget] ∧
    ∀ p, Event.deleteDir p ∉ (processAux [] [walkFailTarget, goodTargetB]).1 :=
  c3_walk_failure_fatal [] walkFailTarget [goodTargetB] [] "ownerA" "repoA"
    ⟨200, .ok "body"⟩ ⟨⟨true, "exit status: 0"⟩, "", ""⟩ "body"
    (.cons (.mk (dirEntry "lib" "lib") (some (.sendError "net down")) .nil) .nil)
    [.httpGet (dirUrl "ownerA" "repoA" "lib")] "net down"
    (by decide) rfl (by decide) rfl rfl rfl rfl rfl (by decide)

/-! ### C7: empty repositories are dropped -/

theorem processAux_ok_shape : ∀ (ts : List Target) (acc res : AllResults),
    (processAux acc ts).2 = .ok res →
    ∃ suffix, res = acc ++ suffix ∧ ∀ p ∈ suffix, p.2 ≠ ([] : RepoResults) := by
  intro ts
  induction ts with
  | nil =>
    intro acc res h
    unfold processAux at h
    dsimp only at h
    simp only [Outcome.ok.injEq] at h
    exact ⟨[], by simp [h], by simp⟩
  | cons t rest ih =>
    intro acc res h
    unfold processAux at h
    split at h
    · simp at h
    · split at h
      · simp at h
      · split at h
        · dsimp only at h
          exact ih acc res h
        · split at h
          · simp at h
          · split at h
            · simp at h
            · split at h
              · simp at h
              · split at h
                · simp at h
                · split at h
                  · simp at h
                  · simp at h
                  · rename_i repo_results heq
                    dsimp only at h
                    by_cases he : repo_results.isEmpty = true
                    · rw [if_pos he] at h
                      exact ih acc res h
                    · rw [if_neg he] at h
                      obtain ⟨suffix, hres, hsuf⟩ := ih _ res h
                      refine ⟨_ :: suffix, by simpa using hres, ?_⟩
                      intro p hp
                      rcases List.mem_cons.mp hp with hh | hh
                      · subst hh
                        simp only [ne_eq]
                        intro hnil
                        exact he (by rw [hnil]; rfl)
                      · exact hsuf p hh

/-- C7: a repository whose per-repository extraction result list is
empty contributes no entry to the aggregate even when clone and compile
succeeded, and every entry of a successful run's aggregate has a
non-empty extracted-file list. -/
theorem c7_empty_repo_dropped :
    (∀ (acc : AllResults) (t : Target) (rest : List Target)
      (owner repo : String) (resp : HttpResponse) (out : ProcOutput)
      (b : String) (contents : NodeList) (evW : List Event),
      parseTarget t.url = some (owner, repo) →
      t.env.rootSend = .ok resp →
      ¬ resp.status > 400 →
      t.env.clone = .ok () →
      t.env.compile = .ok out →
      resp.body = .ok b →
      t.env.parseRoot b = .ok contents →
      process_contents t.env.inspect owner repo contents = (evW, .ok []) →
      (processAux acc (t :: rest)).2 = (processAux acc rest).2)
    ∧ (∀ (targets : List Target) (res : AllResults),
      (process targets).2 = .ok res → ∀ p ∈ res, p.2 ≠ ([] : RepoResults)) := by
  constructor
  · intro acc t rest owner repo resp out b contents evW hp hs hle hcl hco hb hpr hwalk
    conv_lhs => rw [processAux.eq_def]
    dsimp only
    rw [hp]
    dsimp only
    rw [hs]
    dsimp only
    rw [if_neg hle, hcl, hco, hb]
    dsimp only
    rw [hpr]
    dsimp only
    rw [hwalk]
    rfl
  · intro targets res h
    obtain ⟨suffix, hres, hsuf⟩ := processAux_ok_shape targets [] res h
    intro p hp
    exact hsuf p (by simpa [hres] using hp)

/-- Witness for C7: a repository with an empty listing yields an empty
aggregate, and the entry of a successful singleton run is non-empty. -/
theorem c7_empty_repo_dropped_witness :
    (process [emptyRepoTarget]).2 = .ok [] ∧
    ("repoB", [("Token.sol", "0xBC")]).2 ≠ ([] : RepoResults) := by
  constructor
  · have h := c7_empty_repo_dropped.1 [] emptyRepoTarget [] "ownerA" "repoA"
      ⟨200, .ok "body"⟩ ⟨⟨true, "exit status: 0"⟩, "", ""⟩ "body" .nil []
      (by decide) rfl (by decide) rfl rfl rfl rfl rfl
    exact h.trans rfl
  · exact c7_empty_repo_dropped.2 [goodTargetB] [("repoB", [("Token.sol", "0xBC")])]
      (by decide) ("repoB", [("Token.sol", "0xBC")]) (by simp)

/-! ### C4: compile failure is non-fatal, never logged, invoked once -/

theorem walkEvent_not_compile {e : Event} (h : isWalkEvent e = true) :
    isCompileEvent e = false := by
  cases e <;> first | rfl | simp [isWalkEvent] at h

theorem cleanEvents_no_compile (w : Bool) (p : Except String Unit) (s : String) :
    (cleanEvents w p s).filter isCompileEvent = [] := by
  unfold cleanEvents
  split
  · rcases p with e | u <;> simp [isCompileEvent]
  · rfl

theorem postEvents_no_compile (p : Except String Unit) (s : String) (a : AllResults) :
    (postEvents p s a).filter isCompileEvent = [] := by
  unfold postEvents
  rcases p with e | u <;> simp [isCompileEvent]

theorem walk_no_compile (inspect : String → String → Except String ProcOutput)
    (owner repo : String) (nl : NodeList) :
    ((process_contents inspect owner repo nl).1).filter isCompileEvent = [] := by
  refine List.filter_eq_nil_iff.mpr ?_
  intro e he
  rw [walkEvent_not_compile (walkEvents_contents inspect owner repo nl e he)]
  simp

/-- C4 (amended): once the compile command has been spawned its outcome
is completely ignored — the run behaves identically for any exit status
or diagnostic output (so a compilation failure is non-fatal and
extraction is still attempted), the constructed error message is never
logged or returned, and the compile command is invoked exactly once per
repository per run, with the workspace as working directory. -/
theorem c4_compile_nonfatal :
    (∀ (acc : AllResults) (t : Target) (rest : List Target) (o o' : ProcOutput),
      processAux acc ({ t with env := { t.env with compile := .ok o } } :: rest) =
        processAux acc ({ t with env := { t.env with compile := .ok o' } } :: rest))
    ∧ (∀ (t : Target) (owner repo : String) (resp : HttpResponse) (out : ProcOutput),
      parseTarget t.url = some (owner, repo) →
      t.env.rootSend = .ok resp →
      ¬ resp.status > 400 →
      t.env.clone = .ok () →
      t.env.compile = .ok out →
      (process [t]).1.filter isCompileEvent = [Event.runCompile (repoPath repo)]) := by
  constructor
  · intro acc t rest o o'
    rfl
  · intro t owner repo resp out hp hs hle hcl hco
    show ((processAux [] [t]).1.filter isCompileEvent) = _
    conv_lhs => rw [processAux.eq_def]
    dsimp only
    rw [hp]
    dsimp only
    rw [hs]
    dsimp only
    rw [if_neg hle, hcl, hco]
    dsimp only
    rcases hb : resp.body with m | b
    · simp [hb, List.filter_append, cleanEvents_no_compile, isCompileEvent]
    · rcases hpr : t.env.parseRoot b with m | contents
      · simp [hb, hpr, List.filter_append, cleanEvents_no_compile, isCompileEvent]
      · have hWnc := walk_no_compile t.env.inspect owner repo contents
        rcases hw : process_contents t.env.inspect owner repo contents with ⟨evW, outW⟩
        rw [hw] at hWnc
        dsimp only at hWnc
        rcases outW with rs | m | m <;>
          simp [hb, hpr, hw, List.filter_append, cleanEvents_no_compile,
            postEvents_no_compile, hWnc, isCompileEvent, processAux]

/-- Counterexample to C4 as stated: a repository whose compile exits
non-zero is indeed processed to the end (non-fatal, extraction still
happens), but contrary to the claim nothing is logged about the compile
failure: no log line carries the constructed `forge build failed`
message. -/
theorem c4_counterexample :
    (∃ out, compileFailTarget.env.compile = .ok out ∧ out.status.success = false) ∧
    (process [compileFailTarget]).1.filter mentionsCompileFailure = [] ∧
    (process [compileFailTarget]).2 = .ok [("repoA", [("Token.sol", "0xBC")])] :=
  ⟨⟨⟨⟨false, "exit status: 1"⟩, "", "compilation failed"⟩, rfl, rfl⟩, by decide, by decide⟩

/-- Witness for C4 (amended): swapping a failing compile output for a
successful one changes nothing on a concrete run, and the concrete run
invokes the compile command exactly once. -/
theorem c4_compile_nonfatal_witness :
    processAux []
        [{ goodTarget with env := { goodTarget.env with
            compile := .ok ⟨⟨false, "exit status: 1"⟩, "", "boom"⟩ } }] =
      processAux []
        [{ goodTarget with env := { goodTarget.env with
            compile := .ok ⟨⟨true, "exit status: 0"⟩, "", ""⟩ } }] ∧
    (process [goodTarget]).1.filter isCompileEvent =
      [Event.runCompile (repoPath "repoA")] :=
  ⟨c4_compile_nonfatal.1 [] goodTarget []
      ⟨⟨false, "exit status: 1"⟩, "", "boom"⟩ ⟨⟨true, "exit status: 0"⟩, "", ""⟩,
   c4_compile_nonfatal.2 goodTarget "ownerA" "repoA" ⟨200, .ok "body"⟩
      ⟨⟨true, "exit status: 0"⟩, "", ""⟩ (by decide) rfl (by decide) rfl rfl⟩

/-! ### C6: the bytecode extractor -/

theorem Outcome.map_nil_append {α : Type} (x : Outcome (List α)) :
    x.map (fun l => [] ++ l) = x := by
  cases x <;> simp [Outcome.map]

/-- C6: a non-zero exit of the inspect process makes extraction fail
with an error carrying the exit status and the stderr text; inside the
walk such a file is logged and contributes no entry while the remaining
entries are still processed; a zero exit returns the raw stdout
verbatim. -/
theorem c6_extractor :
    (∀ (inspect : String → String → Except String ProcOutput)
      (repo n f : String) (out : ProcOutput),
      strip_suffix n ".sol" = some f →
      inspect (repoPath repo) f = .ok out →
      out.status.success = false →
      get_bytecode inspect n repo = ([.runInspect (repoPath repo) f],
        .err ("forge failed with status " ++ out.status.display ++ ": " ++ out.stderr)))
    ∧ (∀ (inspect : String → String → Except String ProcOutput)
      (repo n f : String) (out : ProcOutput),
      strip_suffix n ".sol" = some f →
      inspect (repoPath repo) f = .ok out →
      out.status.success = true →
      get_bytecode inspect n repo = ([.runInspect (repoPath repo) f], .ok out.stdout))
    ∧ (∀ (inspect : String → String → Except String ProcOutput)
      (owner repo : String) (c : RepoContent) (subErr : Option ListErr)
      (sub rest : NodeList) (name m : String) (ev : List Event),
      c._type = some "file" → c.name = some name → isEligibleName name = true →
      get_bytecode inspect name repo = (ev, .err m) →
      process_contents inspect owner repo (.cons (.mk c subErr sub) rest) =
        ((ev ++ [.logErr ("Error - Bytecode not found for: " ++ name)])
          ++ (process_contents inspect owner repo rest).1,
         (process_contents inspect owner repo rest).2)) := by
  refine ⟨?_, ?_, ?_⟩
  · intro inspect repo n f out hstrip hin hsucc
    unfold get_bytecode
    rw [hstrip]
    dsimp only
    rw [hin]
    dsimp only
    rw [hsucc]
    rfl
  · intro inspect repo n f out hstrip hin hsucc
    unfold get_bytecode
    rw [hstrip]
    dsimp only
    rw [hin]
    dsimp only
    rw [hsucc]
    rfl
  · intro inspect owner repo c subErr sub rest name m ev htype hname helig hbc
    rw [process_contents_cons, process_entry_file_err inspect owner repo c subErr sub
      htype hname helig hbc]
    dsimp only
    rw [Outcome.map_nil_append]

/-- Witness for C6: a concrete failing inspect process yields the
formatted error; a succeeding one returns its stdout verbatim. -/
theorem c6_extractor_witness :
    get_bytecode badInspect "Token.sol" "repoA" =
      ([.runInspect (repoPath "repoA") "Token"],
        .err ("forge failed with status " ++ "exit status: 1" ++ ": " ++ "missing artifact")) ∧
    get_bytecode (okInspect "0xBC") "Token.sol" "repoA" =
      ([.runInspect (repoPath "repoA") "Token"], .ok "0xBC") :=
  ⟨c6_extractor.1 badInspect "repoA" "Token.sol" "Token"
      ⟨⟨false, "exit status: 1"⟩, "", "missing artifact"⟩ (by decide) rfl rfl,
   c6_extractor.2.1 (okInspect "0xBC") "repoA" "Token.sol" "Token"
      ⟨⟨true, "exit status: 0"⟩, "0xBC", ""⟩ (by decide) rfl rfl⟩

/-! ### C8: the tree walk -/

/-- C8: the walk silently skips entries with unknown or missing kind,
recurses into a `dir` entry via a fresh listing of that entry's path
(appending the recursive results), adds a file entry's name exactly
when the source filter accepts it (under an oracle where every
extraction succeeds, the walked names are exactly the filtered names),
and on the synthetic tree
`[file "A.sol", dir "lib" = [file "B.sol", file "B.t.sol"]]` the walked
names are exactly `A.sol` and `B.sol`. -/
theorem c8_tree_walk :
    (∀ (inspect : String → String → Except String ProcOutput)
      (owner repo : String) (c : RepoContent) (subErr : Option ListErr)
      (sub : NodeList),
      c._type ≠ some "file" → c._type ≠ some "dir" →
      process_entry inspect owner repo (.mk c subErr sub) = ([], .ok []))
    ∧ (∀ (inspect : String → String → Except String ProcOutput)
      (owner repo : String) (c : RepoContent) (sub : NodeList) (p : String),
      c._type = some "dir" → c.path = some p →
      process_entry inspect owner repo (.mk c none sub) =
        (.httpGet (dirUrl owner repo p) :: (process_contents inspect owner repo sub).1,
          (process_contents inspect owner repo sub).2))
    ∧ (∀ (inspect : String → String → Except String ProcOutput)
      (owner repo : String) (nl : NodeList), InspectTotal inspect →
      cleanListing nl = true →
      ∃ rs, (process_contents inspect owner repo nl).2 = .ok rs ∧
        rs.map Prod.fst = walkNames nl)
    ∧ (process_contents (okInspect "0xBC") "ownerA" "repoA" syntheticTree).2 =
        .ok [("A.sol", "0xBC"), ("B.sol", "0xBC")] := by
  refine ⟨?_, ?_, ?_, by decide⟩
  · exact fun inspect owner repo c subErr sub h1 h2 =>
      process_entry_skip inspect owner repo c subErr sub h1 h2
  · exact fun inspect owner repo c sub p h1 h2 =>
      process_entry_dir inspect owner repo c sub h1 h2
  · exact fun inspect owner repo nl hT hc =>
      walkNames_contents inspect owner repo hT nl hc

/-- Witness for C8: on the synthetic tree with an always-successful
oracle the walked names are exactly `["A.sol", "B.sol"]`, and a
concrete unknown-kind entry is skipped silently. -/
theorem c8_tree_walk_witness :
    (∃ rs, (process_contents (okInspect "0xBC") "ownerA" "repoA" syntheticTree).2 =
        .ok rs ∧ rs.map Prod.fst = ["A.sol", "B.sol"]) ∧
    process_entry (okInspect "0xBC") "ownerA" "repoA"
      (.mk ⟨some "x", some "x", none, none, none, some "symlink", none, none, none,
        none, none⟩ none .nil) = ([], .ok []) := by
  constructor
  · obtain ⟨rs, h1, h2⟩ := c8_tree_walk.2.2.1 (okInspect "0xBC") "ownerA" "repoA"
      syntheticTree (fun p f => ⟨⟨⟨true, "exit status: 0"⟩, "0xBC", ""⟩, rfl, rfl⟩)
      (by decide)
    refine ⟨rs, h1, ?_⟩
    rw [h2]
    decide
  · exact c8_tree_walk.1 (okInspect "0xBC") "ownerA" "repoA" _ none .nil
      (by decide) (by decide)

end C4A
